import Mathlib

/-!
Verification development for the MX trading platform core.

Shallow embedding of the order-routing core: order data model
(src/order_manager/models.rs), the Order Manager's dedup/cancel logic
(src/order_manager/order_manager.rs), the Context Manager's depth/fill
handling (src/context_manager/context_manager.rs), the Gateway's cancel
path (src/gateway/gateway.rs) and the per-robot Risk Control
(src/robot/risk_control/risk_control.rs).

Modelling conventions:
* Rust `f64` amounts/prices are modelled as exact rationals (`ℚ`); the
  order-manager paths only copy and compare them structurally, and the
  risk-control checks only compare and sum them, so no floating-point
  rounding behaviour is load-bearing for the properties proved here.
* Rust `HashMap` is modelled as an association list with first-key lookup
  and replace-in-place insert; iteration order of a dispatch pass's
  per-gateway groups follows first-insertion order.
* Fallible operations (`Vec::remove` out of bounds, `Option::unwrap`)
  are modelled with `Option`: `none` models a Rust panic.
* Channel sends are modelled as succeeding; the list of per-gateway
  messages produced by a dispatch pass is returned explicitly.
-/

namespace MX

/-! ### Order data model (src/order_manager/models.rs) -/

inductive OrderSide
  | Buy
  | Sell
deriving DecidableEq

inductive StrategyParams
  | ArbitrationParams (axes_id : String) (level : String)
  | SimpleStrategyParams (name : String)
  | Stub
deriving DecidableEq

structure LimitOrder where
  gateway : String
  symbol : String
  amount : ℚ
  price : ℚ
  order_side : OrderSide
  custom_order_id : String
deriving DecidableEq

structure MarketOrder where
  gateway : String
  symbol : String
  amount : ℚ
  order_side : OrderSide
deriving DecidableEq

structure CancelOrder where
  order_id : ℕ
  gateway : String
  symbol : String
  price : ℚ
  amount : ℚ
  order_side : OrderSide
  custom_order_id : String
deriving DecidableEq

inductive Order
  | LimitOrder (lo : LimitOrder)
  | MarketOrder (mo : MarketOrder)
  | CancelOrder (co : CancelOrder)
deriving DecidableEq

/-- `OrderContainer` from src/order_manager/models.rs; `created_at`
(a `std::time::Instant`) is modelled as an opaque tick count. -/
structure OrderContainer where
  robot_id : String
  order : Order
  metainfo : StrategyParams
  created_at : ℕ
deriving DecidableEq

/-! ### Association-list stand-in for `HashMap` -/

/-- Lookup by key, first match (Rust `HashMap::get`). -/
def lookupA {α : Type} : List (String × α) → String → Option α
  | [], _ => none
  | (k', v) :: rest, k => if k' = k then some v else lookupA rest k

/-- Insert/replace by key (Rust `HashMap::insert`): replaces the first
occurrence in place, otherwise appends. -/
def insertA {α : Type} : List (String × α) → String → α → List (String × α)
  | [], k, v => [(k, v)]
  | (k', v') :: rest, k, v =>
      if k' = k then (k, v) :: rest else (k', v') :: insertA rest k v

theorem lookupA_insertA_self {α : Type} (m : List (String × α)) (k : String) (v : α) :
    lookupA (insertA m k v) k = some v := by
  induction m with
  | nil => simp [insertA, lookupA]
  | cons hd tl ih =>
      obtain ⟨k', v'⟩ := hd
      by_cases h : k' = k
      · simp [insertA, lookupA, h]
      · simp [insertA, lookupA, h, ih]

theorem lookupA_insertA_ne {α : Type} (m : List (String × α)) (k g : String) (v : α)
    (h : g ≠ k) : lookupA (insertA m k v) g = lookupA m g := by
  have hkg : ¬ (k = g) := fun hq => h hq.symm
  induction m with
  | nil => simp [insertA, lookupA, hkg]
  | cons hd tl ih =>
      obtain ⟨k', v'⟩ := hd
      by_cases hk : k' = k
      · subst hk
        simp [insertA, lookupA, hkg]
      · by_cases hg : k' = g
        · simp [insertA, lookupA, hk, hg, h]
        · simp [insertA, lookupA, hk, hg, ih]

theorem lookupA_mem {α : Type} {m : List (String × α)} {k : String} {v : α}
    (h : lookupA m k = some v) : (k, v) ∈ m := by
  induction m with
  | nil => simp [lookupA] at h
  | cons hd tl ih =>
      obtain ⟨k', v'⟩ := hd
      by_cases hk : k' = k
      · subst hk
        simp [lookupA] at h
        simp [h]
      · simp [lookupA, hk] at h
        exact List.mem_cons_of_mem _ (ih h)

/-! ### Risk Control (src/robot/risk_control/risk_control.rs) -/

/-- `Position` from src/context_manager/models.rs. -/
structure Position where
  gateway : String
  symbol : String
  amount : ℚ
  price : ℚ
  order_side : OrderSide
  strategy_params : StrategyParams
deriving DecidableEq

/-- `NUMBER_OF_BAD_DEALS` constant (risk_control.rs line 7). -/
def NUMBER_OF_BAD_DEALS : ℕ := 16

/-- `RiskLimit` struct (risk_control.rs). -/
structure RiskLimit where
  max_loss : ℤ
  stop_loss : ℤ
  number_of_bad_deals : ℕ
  time_interval_of_bad_deals : ℕ
  bad_deal_chain_sequence : List Bool
deriving DecidableEq

/-- Mutable state of `RiskControl`: the configured limits and the
`max_pnl` high-water mark held in the `RwLock`. -/
structure RiskControlSt where
  limits : RiskLimit
  max_pnl : ℤ
deriving DecidableEq

/-- `RiskControl::calc_pnl`: Σ(sell.amount*sell.price) − Σ(buy.amount*buy.price). -/
def calc_pnl (positions : List Position) : ℚ :=
  (positions.map (fun p =>
    match p.order_side with
    | OrderSide.Buy => -(p.amount * p.price)
    | OrderSide.Sell => p.amount * p.price)).sum

/-- `RiskControl::check_max_loss`. -/
def check_max_loss (limits : RiskLimit) (pnl : ℤ) : Bool :=
  if limits.max_loss + pnl ≤ 0 then true else false

/-- `RiskControl::check_stop_loss`; `max_pnl` is the value of the
high-water mark at the moment of the check (read from the lock after
`check_risk` has already updated it). -/
def check_stop_loss (limits : RiskLimit) (max_pnl pnl : ℤ) : Bool :=
  if pnl < 0 ∧ limits.stop_loss ≤ max_pnl + pnl then true else false

/-- `RiskControl::get_last_positions`: `None` when fewer than `count`
positions exist, otherwise the last `count` of them. -/
def get_last_positions (positions : List Position) (count : ℕ) : Option (List Position) :=
  if positions.length < count then none
  else some (positions.drop (positions.length - count))

/-- The price-comparison loop shared by `_check_bids`; the accumulator is
the `last_price` variable, `none` standing for the initial `f64::MAX`
(the first comparison `price > f64::MAX` is always false). -/
def bids_price_loop : Option ℚ → List Position → Bool
  | _, [] => true
  | none, p :: rest => bids_price_loop (some p.price) rest
  | some last, p :: rest =>
      if last < p.price then false else bids_price_loop (some p.price) rest

/-- The price-comparison loop of `_check_asks`, `none` standing for the
initial `f64::MIN`. -/
def asks_price_loop : Option ℚ → List Position → Bool
  | _, [] => true
  | none, p :: rest => asks_price_loop (some p.price) rest
  | some last, p :: rest =>
      if p.price < last then false else asks_price_loop (some p.price) rest

/-- `RiskControl::_check_bids`. -/
def _check_bids (positions : List Position) (count : ℕ) : Bool :=
  match get_last_positions positions count with
  | some last_positions => bids_price_loop none last_positions
  | none => false

/-- `RiskControl::_check_asks`. -/
def _check_asks (positions : List Position) (count : ℕ) : Bool :=
  match get_last_positions positions count with
  | some last_positions => asks_price_loop none last_positions
  | none => false

/-- `RiskControl::check_bids` (fixed count `NUMBER_OF_BAD_DEALS`). -/
def check_bids (positions : List Position) : Bool :=
  _check_bids positions NUMBER_OF_BAD_DEALS

/-- `RiskControl::check_asks` (fixed count `NUMBER_OF_BAD_DEALS`). -/
def check_asks (positions : List Position) : Bool :=
  _check_asks positions NUMBER_OF_BAD_DEALS

/-- `RiskControl::check_bad_deal_chain_sequence`: `drain_filter` splits
off the Buy positions (`asks`), the remaining Sell positions are the
`bids`; both keep their relative order. -/
def check_bad_deal_chain_sequence (positions : List Position) : Bool :=
  let asks := positions.filter (fun p => p.order_side == OrderSide.Buy)
  let bids := positions.filter (fun p => !(p.order_side == OrderSide.Buy))
  check_bids bids || check_asks asks

/-- `RiskControl::check_risk`: computes `pnl = ceil(calc_pnl)`, raises the
`max_pnl` high-water mark, then ORs the three checks (`check_stop_loss`
reads the already-updated mark). Returns the new state and the verdict. -/
def check_risk (rc : RiskControlSt) (positions : List Position) : RiskControlSt × Bool :=
  let pnl : ℤ := ⌈calc_pnl positions⌉
  let max_pnl' : ℤ := if rc.max_pnl < pnl then pnl else rc.max_pnl
  ({ rc with max_pnl := max_pnl' },
    check_max_loss rc.limits pnl || check_stop_loss rc.limits max_pnl' pnl
      || check_bad_deal_chain_sequence positions)

/-- The successive values of the `max_pnl` high-water mark when a sequence
of position snapshots is fed through `check_risk`. -/
def max_pnl_trace (rc : RiskControlSt) (snaps : List (List Position)) : List ℤ :=
  (snaps.scanl (fun s ps => (check_risk s ps).1) rc).map RiskControlSt.max_pnl

theorem check_risk_max_pnl_le (rc : RiskControlSt) (ps : List Position) :
    rc.max_pnl ≤ ((check_risk rc ps).1).max_pnl := by
  unfold check_risk
  dsimp only
  split
  · omega
  · exact le_rfl

theorem max_pnl_trace_head (rc : RiskControlSt) (snaps : List (List Position)) :
    (max_pnl_trace rc snaps).head? = some rc.max_pnl := by
  cases snaps <;> simp [max_pnl_trace]

theorem max_pnl_trace_cons (rc : RiskControlSt) (a : List Position)
    (l : List (List Position)) :
    max_pnl_trace rc (a :: l) = rc.max_pnl :: max_pnl_trace ((check_risk rc a).1) l := by
  simp [max_pnl_trace]

/-- C6: the `max_pnl` running high-water mark stored by `check_risk` is
monotonically non-decreasing across any sequence of position-list
snapshot evaluations. -/
theorem risk_running_max_pnl_monotone (rc : RiskControlSt) (snaps : List (List Position)) :
    List.Chain' (· ≤ ·) (max_pnl_trace rc snaps) := by
  induction snaps generalizing rc with
  | nil => simp [max_pnl_trace]
  | cons a l ih =>
      rw [max_pnl_trace_cons]
      rw [List.chain'_cons']
      refine ⟨?_, ih _⟩
      intro b hb
      rw [max_pnl_trace_head] at hb
      simp only [Option.mem_def, Option.some.injEq] at hb
      subst hb
      exact check_risk_max_pnl_le rc a

/-- Risk limits with `max_loss = 10` (the other fields are not read by
`check_max_loss`). -/
def c5_limits : RiskLimit :=
  { max_loss := 10, stop_loss := 1, number_of_bad_deals := 16,
    time_interval_of_bad_deals := 120000, bad_deal_chain_sequence := [] }

/-- C5: `check_max_loss` locks the robot exactly when
`max_loss_limit + pnl <= 0`; in particular with `max_loss = 10` the pnl
`-5` does not lock and the pnl `-11` locks. -/
theorem check_max_loss_iff :
    (∀ (limits : RiskLimit) (pnl : ℤ),
        check_max_loss limits pnl = true ↔ limits.max_loss + pnl ≤ 0)
  ∧ check_max_loss c5_limits (-5) = false
  ∧ check_max_loss c5_limits (-11) = true := by
  refine ⟨?_, by decide, by decide⟩
  intro limits pnl
  unfold check_max_loss
  split
  · simp_all
  · simp_all

theorem bids_price_loop_some_of (ps : List Position) :
    ∀ last : ℚ, List.Chain' (fun a b => b.price ≤ a.price) ps →
      (∀ p ∈ ps.head?, p.price ≤ last) → bids_price_loop (some last) ps = true := by
  induction ps with
  | nil => intro last _ _; rfl
  | cons p rest ih =>
      intro last hchain hhead
      have hp : p.price ≤ last := hhead p (by simp)
      rw [List.chain'_cons'] at hchain
      unfold bids_price_loop
      rw [if_neg (by exact not_lt.mpr hp)]
      exact ih p.price hchain.2 hchain.1

theorem bids_price_loop_none_of (ps : List Position)
    (hchain : List.Chain' (fun a b => b.price ≤ a.price) ps) :
    bids_price_loop none ps = true := by
  cases ps with
  | nil => rfl
  | cons p rest =>
      rw [List.chain'_cons'] at hchain
      unfold bids_price_loop
      exact bids_price_loop_some_of rest p.price hchain.2 hchain.1

/-- C7: the bad-deal-chain sell-side check fires only when at least
`count` positions exist: with exactly `count` consecutively non-increasing
sell prices it returns true, with fewer than `count` positions it returns
false regardless of prices; instantiated at the default
`NUMBER_OF_BAD_DEALS = 16` and at 15 positions. -/
theorem bad_deal_chain_threshold :
    (∀ (count : ℕ) (positions : List Position),
        positions.length = count →
        List.Chain' (fun a b => b.price ≤ a.price) positions →
        _check_bids positions count = true)
  ∧ (∀ (count : ℕ) (positions : List Position),
        positions.length < count → _check_bids positions count = false)
  ∧ (∀ positions : List Position,
        positions.length = 16 →
        List.Chain' (fun a b => b.price ≤ a.price) positions →
        check_bids positions = true)
  ∧ (∀ positions : List Position,
        positions.length = 15 → check_bids positions = false) := by
  have hfull : ∀ (count : ℕ) (positions : List Position),
      positions.length = count →
      List.Chain' (fun a b => b.price ≤ a.price) positions →
      _check_bids positions count = true := by
    intro count positions hlen hchain
    unfold _check_bids get_last_positions
    rw [if_neg (by omega)]
    simp only [hlen, Nat.sub_self, List.drop_zero]
    exact bids_price_loop_none_of positions hchain
  have hshort : ∀ (count : ℕ) (positions : List Position),
      positions.length < count → _check_bids positions count = false := by
    intro count positions hlen
    unfold _check_bids get_last_positions
    rw [if_pos hlen]
  refine ⟨hfull, hshort, ?_, ?_⟩
  · intro positions hlen hchain
    exact hfull NUMBER_OF_BAD_DEALS positions (by simpa [NUMBER_OF_BAD_DEALS] using hlen) hchain
  · intro positions hlen
    exact hshort NUMBER_OF_BAD_DEALS positions (by simp [NUMBER_OF_BAD_DEALS, hlen])

/-! ### Order Manager (src/order_manager/order_manager.rs) -/

/-- The sent-orders ledger: gateway name to the limit-order containers
believed outstanding at that gateway. -/
abbrev SentOrdersMap := List (String × List OrderContainer)

/-- `OrderManager::convert_limit_to_cancel`: rewrites a limit-order
container into a cancel-order container carrying the limit order's
price, amount, symbol, side and custom order id; `None` on non-limit
containers. -/
def convert_limit_to_cancel (oc : OrderContainer) : Option OrderContainer :=
  match oc.order with
  | Order.LimitOrder lo =>
      some { robot_id := oc.robot_id,
             order := Order.CancelOrder
               { order_id := 0, gateway := lo.gateway, symbol := lo.symbol,
                 price := lo.price, amount := lo.amount,
                 order_side := lo.order_side,
                 custom_order_id := lo.custom_order_id },
             metainfo := oc.metainfo, created_at := oc.created_at }
  | Order.MarketOrder _ => none
  | Order.CancelOrder _ => none

/-- The match predicate inside `OrderManager::find_sent_orders`: a sent
container is superseded when it is a limit order from the same robot,
same gateway, same symbol, same side and same strategy metadata as the
incoming limit order (price and amount are not compared). -/
def sent_order_matches (container : OrderContainer) (lo : LimitOrder)
    (sent_container : OrderContainer) : Bool :=
  match sent_container.order with
  | Order.LimitOrder slo =>
      decide (sent_container.robot_id = container.robot_id) &&
      decide (slo.gateway = lo.gateway) &&
      decide (slo.symbol = lo.symbol) &&
      decide (slo.order_side = lo.order_side) &&
      decide (sent_container.metainfo = container.metainfo)
  | Order.MarketOrder _ => false
  | Order.CancelOrder _ => false

/-- The positions at which a predicate holds, in increasing order
(the `enumerate`-and-push-index loop of `find_sent_orders`). -/
def find_indexes {α : Type} (p : α → Bool) : List α → List ℕ
  | [] => []
  | x :: xs => (if p x then [0] else []) ++ (find_indexes p xs).map (· + 1)

/-- `OrderManager::find_sent_orders`: indices of the ledger entries that
match the incoming container; empty for market and cancel orders. -/
def find_sent_orders (sent_containers : List OrderContainer)
    (container : OrderContainer) : List ℕ :=
  match container.order with
  | Order.LimitOrder lo => find_indexes (sent_order_matches container lo) sent_containers
  | Order.MarketOrder _ => []
  | Order.CancelOrder _ => []

/-- Rust `Vec::remove`: the element at the index and the remaining list;
`none` models the out-of-bounds panic. -/
def vec_remove {α : Type} : List α → ℕ → Option (α × List α)
  | [], _ => none
  | x :: xs, 0 => some (x, xs)
  | x :: xs, n + 1 => (vec_remove xs n).map (fun r => (r.1, x :: r.2))

/-- The removal loop of `check_order`: the index list is computed in full
beforehand and each index is fed to `Vec::remove` on the shrinking list;
every removed entry is converted by `convert_limit_to_cancel(..).unwrap()`.
Returns the synthesized cancel containers and the remaining ledger entry;
`none` models a panic (out-of-bounds remove or unwrap of a non-limit). -/
def remove_and_cancel : List OrderContainer → List ℕ →
    Option (List OrderContainer × List OrderContainer)
  | gw_orders, [] => some ([], gw_orders)
  | gw_orders, index :: rest =>
      match vec_remove gw_orders index with
      | none => none
      | some (sent_order, gw_orders') =>
          match convert_limit_to_cancel sent_order with
          | none => none
          | some c =>
              (remove_and_cancel gw_orders' rest).map (fun r => (c :: r.1, r.2))

/-- `OrderManager::check_order`: for a limit order, looks up the ledger
entry under the raw `gateway` field, removes the matching entries and
returns their cancels; market and cancel orders are never checked.
A missing ledger entry is not an error. -/
def check_order (sent_orders : SentOrdersMap) (order_container : OrderContainer) :
    Option (List OrderContainer × SentOrdersMap) :=
  match order_container.order with
  | Order.LimitOrder lo =>
      match lookupA sent_orders lo.gateway with
      | some gateway_sent_orders =>
          match remove_and_cancel gateway_sent_orders
              (find_sent_orders gateway_sent_orders order_container) with
          | some r => some (r.1, insertA sent_orders lo.gateway r.2)
          | none => none
      | none => some ([], sent_orders)
  | Order.MarketOrder _ => some ([], sent_orders)
  | Order.CancelOrder _ => some ([], sent_orders)

/-- The characters before the first `::` of the identifier, when present. -/
def take_before_sep : List Char → Option (List Char)
  | [] => none
  | ':' :: ':' :: _ => some []
  | c :: rest => (take_before_sep rest).map (fun l => c :: l)

/-- `Gateway::extract_gateway_name`: the prefix before `::` when the
identifier contains one, otherwise the identifier with its first letter
capitalized (`Char.toUpper` matches Rust's `to_uppercase().nth(0)` on the
ASCII names used here; the Rust code indexes `chars[0]` and would panic
on an empty identifier, a case no caller reaches). -/
def extract_gateway_name (gateway_indentifier : String) : String :=
  match take_before_sep gateway_indentifier.data with
  | some before => String.mk before
  | none =>
      match gateway_indentifier.data with
      | [] => ""
      | c :: cs => String.mk (c.toUpper :: cs)

/-- `OrderManager::get_gateway`: the `gateway` field of the wrapped order. -/
def get_gateway (order_container : OrderContainer) : String :=
  match order_container.order with
  | Order.LimitOrder lo => lo.gateway
  | Order.MarketOrder mo => mo.gateway
  | Order.CancelOrder co => co.gateway

/-- The limit-order filter of `OrderManager::save_sent_orders`. -/
def is_limit_container (oc : OrderContainer) : Bool :=
  match oc.order with
  | Order.LimitOrder _ => true
  | Order.MarketOrder _ => false
  | Order.CancelOrder _ => false

/-- `OrderManager::save_sent_orders`: replaces the gateway's ledger entry
wholesale with the limit orders of the batch just sent. -/
def save_sent_orders (sent_orders : SentOrdersMap) (gateway : String)
    (orders : List OrderContainer) : SentOrdersMap :=
  insertA sent_orders gateway (orders.filter is_limit_container)

/-- Accumulation of a per-gateway batch into the `orders_by_gateway`
grouping of `send_to_gateways` (`get_mut`-extend when the key exists,
insert otherwise; group order is first-insertion order). -/
def append_group (groups : List (String × List OrderContainer)) (gateway : String)
    (orders : List OrderContainer) : List (String × List OrderContainer) :=
  match groups with
  | [] => [(gateway, orders)]
  | (g, os) :: rest =>
      if g = gateway then (g, os ++ orders) :: rest
      else (g, os) :: append_group rest gateway orders

/-- The per-container phase of `OrderManager::send_to_gateways`: for each
wanted order run `check_order` (mutating the ledger), prepend the
synthesized cancels to the new order, and group the result under the
normalized gateway name taken from the first order of the batch. -/
def collect_orders_by_gateway (sent_orders : SentOrdersMap)
    (batch : List OrderContainer) (groups : List (String × List OrderContainer)) :
    Option (SentOrdersMap × List (String × List OrderContainer)) :=
  match batch with
  | [] => some (sent_orders, groups)
  | order_container :: rest =>
      match check_order sent_orders order_container with
      | none => none
      | some (orders_to_cancel, sent_orders') =>
          let orders_to_send := orders_to_cancel ++ [order_container]
          let first := match orders_to_cancel with
            | [] => order_container
            | c :: _ => c
          let gateway := extract_gateway_name (get_gateway first)
          collect_orders_by_gateway sent_orders' rest
            (append_group groups gateway orders_to_send)

/-- `OrderManager::send_orders`: sends each per-gateway batch over the
gateway's channel (modelled as succeeding) and records the batch's limit
orders in the ledger via `save_sent_orders`. -/
def send_orders (sent_orders : SentOrdersMap)
    (grouped : List (String × List OrderContainer)) : SentOrdersMap :=
  match grouped with
  | [] => sent_orders
  | (gateway, orders) :: rest =>
      send_orders (save_sent_orders sent_orders gateway orders) rest

/-- One dispatch pass of `OrderManager::send_to_gateways` over a drained
batch of wanted orders: returns the new ledger and the list of
per-gateway messages sent; `none` models a panic inside `check_order`. -/
def send_to_gateways (sent_orders : SentOrdersMap) (batch : List OrderContainer) :
    Option (SentOrdersMap × List (String × List OrderContainer)) :=
  (collect_orders_by_gateway sent_orders batch []).map
    (fun r => (send_orders r.1 r.2, r.2))

/-- `OrderManagerState` (src/order_manager/models.rs). -/
inductive OrderManagerState
  | Started
  | Stopped
deriving DecidableEq

/-- The Order Manager state tracked by the shutdown path. -/
structure OrderManager where
  sent_orders : SentOrdersMap
  current_state : OrderManagerState

/-- `OrderManager::make_cancel_orders`: one cancel per remaining ledger
limit order, grouped by gateway, and the ledger cleared. -/
def make_cancel_orders (sent_orders : SentOrdersMap) :
    List (String × List OrderContainer) × SentOrdersMap :=
  (sent_orders.map (fun e => (e.1, e.2.filterMap convert_limit_to_cancel)), [])

/-- `OrderManager::stop`: in the Started state, signals both loops
(abstracted), synthesizes cancels for everything still in the ledger,
dispatches them through the normal per-gateway send path and moves to
Stopped; stopping twice is an error. Returns the messages sent. -/
def om_stop (om : OrderManager) :
    Except String (OrderManager × List (String × List OrderContainer)) :=
  match om.current_state with
  | OrderManagerState.Started =>
      let r := make_cancel_orders om.sent_orders
      Except.ok ({ sent_orders := send_orders r.2 r.1,
                   current_state := OrderManagerState.Stopped }, r.1)
  | OrderManagerState.Stopped => Except.error "Order Manager is already stopped"

/-- `ActiveOrder` (src/context_manager/models.rs). -/
structure ActiveOrder where
  custom_order_id : String
  robot_id : String
  gateway : String
  symbol : String
  amount : ℚ
  price : ℚ
  order_side : OrderSide
  strategy_params : StrategyParams
deriving DecidableEq

/-- `FilledOrder` (src/context_manager/models.rs); the exchange reports
the filled amount as a string. -/
structure FilledOrder where
  custom_order_id : String
  order_id : ℕ
  symbol : String
  amount : String
deriving DecidableEq

/-- `ActiveOrderMsg` (src/order_manager/models.rs). -/
inductive ActiveOrderMsg
  | ActiveStateOrder (active_order : ActiveOrder)
  | FilledOrder (filled_order : FilledOrder)

/-- `OrderManager::handle_active_order`: `ActiveStateOrder` appends to the
robot's active-orders list (creating it if absent); the `FilledOrder`
removal logic is commented out in the source, so the store is returned
unchanged. -/
def handle_active_order (active_orders : List (String × List ActiveOrder))
    (msg : ActiveOrderMsg) : List (String × List ActiveOrder) :=
  match msg with
  | ActiveOrderMsg.ActiveStateOrder active_order =>
      match lookupA active_orders active_order.robot_id with
      | some orders =>
          insertA active_orders active_order.robot_id (orders ++ [active_order])
      | none => insertA active_orders active_order.robot_id [active_order]
  | ActiveOrderMsg.FilledOrder _ => active_orders

/-- A limit-order container as a Robot builds it. -/
def mk_limit_container (robot g symbol : String) (amount price : ℚ)
    (side : OrderSide) (id : String) (meta : StrategyParams) (t : ℕ) : OrderContainer :=
  { robot_id := robot,
    order := Order.LimitOrder
      { gateway := g, symbol := symbol, amount := amount, price := price,
        order_side := side, custom_order_id := id },
    metainfo := meta, created_at := t }

/-- The cancel-order container `convert_limit_to_cancel` produces for the
corresponding limit-order container. -/
def mk_cancel_container (robot g symbol : String) (amount price : ℚ)
    (side : OrderSide) (id : String) (meta : StrategyParams) (t : ℕ) : OrderContainer :=
  { robot_id := robot,
    order := Order.CancelOrder
      { order_id := 0, gateway := g, symbol := symbol, price := price,
        amount := amount, order_side := side, custom_order_id := id },
    metainfo := meta, created_at := t }

/-- C1 (amended): for two limit-order containers from the same robot with
the same gateway, symbol, side and strategy metadata but different
prices, dispatched one after the other from an empty ledger, the gateway
receives exactly two messages — the first with only the first order, the
second with the stale order's cancel (carrying its price, amount, symbol
and custom order id) followed by the second order — and the ledger entry
afterwards holds only the second order; provided the gateway identifier
is already in normalized form (`extract_gateway_name g = g`), because
`check_order` looks the ledger up under the raw gateway field while
`save_sent_orders` records under the normalized name. -/
theorem order_manager_dedup_pair
    (robot g symbol id1 id2 : String) (meta : StrategyParams) (side : OrderSide)
    (a1 a2 p1 p2 : ℚ) (t1 t2 : ℕ)
    (hg : extract_gateway_name g = g) (hp : p1 ≠ p2) :
    send_to_gateways [] [mk_limit_container robot g symbol a1 p1 side id1 meta t1]
      = some ([(g, [mk_limit_container robot g symbol a1 p1 side id1 meta t1])],
              [(g, [mk_limit_container robot g symbol a1 p1 side id1 meta t1])])
  ∧ send_to_gateways [(g, [mk_limit_container robot g symbol a1 p1 side id1 meta t1])]
        [mk_limit_container robot g symbol a2 p2 side id2 meta t2]
      = some ([(g, [mk_limit_container robot g symbol a2 p2 side id2 meta t2])],
              [(g, [mk_cancel_container robot g symbol a1 p1 side id1 meta t1,
                    mk_limit_container robot g symbol a2 p2 side id2 meta t2])])
  ∧ lookupA [(g, [mk_limit_container robot g symbol a2 p2 side id2 meta t2])] g
      = some [mk_limit_container robot g symbol a2 p2 side id2 meta t2] := by
  refine ⟨?_, ?_, ?_⟩
  · simp [send_to_gateways, collect_orders_by_gateway, check_order, lookupA,
      mk_limit_container, get_gateway, hg, append_group, send_orders,
      save_sent_orders, insertA, is_limit_container]
  · simp [send_to_gateways, collect_orders_by_gateway, check_order, lookupA,
      mk_limit_container, mk_cancel_container, find_sent_orders, find_indexes,
      sent_order_matches, vec_remove, remove_and_cancel, convert_limit_to_cancel,
      get_gateway, hg, append_group, send_orders, save_sent_orders, insertA,
      is_limit_container]
  · simp [lookupA]

/-- Witness for the dedup-pair theorem at Scenario A's inputs (robot R1,
gateway Binance, symbol BTCUSDT, Buy, prices 100 then 101). -/
theorem order_manager_dedup_pair_witness :
    send_to_gateways
        [("Binance", [mk_limit_container "R1" "Binance" "BTCUSDT" 1 100
            OrderSide.Buy "id1" StrategyParams.Stub 0])]
        [mk_limit_container "R1" "Binance" "BTCUSDT" 1 101
            OrderSide.Buy "id2" StrategyParams.Stub 1]
      = some ([("Binance", [mk_limit_container "R1" "Binance" "BTCUSDT" 1 101
                  OrderSide.Buy "id2" StrategyParams.Stub 1])],
              [("Binance", [mk_cancel_container "R1" "Binance" "BTCUSDT" 1 100
                  OrderSide.Buy "id1" StrategyParams.Stub 0,
                mk_limit_container "R1" "Binance" "BTCUSDT" 1 101
                  OrderSide.Buy "id2" StrategyParams.Stub 1])]) :=
  (order_manager_dedup_pair "R1" "Binance" "BTCUSDT" "id1" "id2"
    StrategyParams.Stub OrderSide.Buy 1 1 100 101 0 1 (by decide)
    (by norm_num)).2.1

/-- Counterexample to C1 as stated: with the gateway field `"huobi"`
(not in normalized form) the two containers satisfy all the claim's
premises — same robot, gateway, symbol, side and strategy metadata,
different prices — yet the second message sent to gateway `"Huobi"`
contains only the second order and no CancelOrder for the stale first
order: `check_order` looked up the ledger under `"huobi"` while the entry
was saved under `"Huobi"`. -/
theorem order_manager_dedup_pair_counterexample :
    (100 : ℚ) ≠ 101
  ∧ send_to_gateways []
        [mk_limit_container "R1" "huobi" "BTCUSDT" 1 100
            OrderSide.Buy "id1" StrategyParams.Stub 0]
      = some ([("Huobi", [mk_limit_container "R1" "huobi" "BTCUSDT" 1 100
                  OrderSide.Buy "id1" StrategyParams.Stub 0])],
              [("Huobi", [mk_limit_container "R1" "huobi" "BTCUSDT" 1 100
                  OrderSide.Buy "id1" StrategyParams.Stub 0])])
  ∧ send_to_gateways
        [("Huobi", [mk_limit_container "R1" "huobi" "BTCUSDT" 1 100
            OrderSide.Buy "id1" StrategyParams.Stub 0])]
        [mk_limit_container "R1" "huobi" "BTCUSDT" 1 101
            OrderSide.Buy "id2" StrategyParams.Stub 1]
      = some ([("Huobi", [mk_limit_container "R1" "huobi" "BTCUSDT" 1 101
                  OrderSide.Buy "id2" StrategyParams.Stub 1])],
              [("Huobi", [mk_limit_container "R1" "huobi" "BTCUSDT" 1 101
                  OrderSide.Buy "id2" StrategyParams.Stub 1])])
  ∧ is_limit_container (mk_limit_container "R1" "huobi" "BTCUSDT" 1 101
        OrderSide.Buy "id2" StrategyParams.Stub 1) = true := by
  refine ⟨by norm_num, by decide, by decide, by decide⟩

theorem find_indexes_getElem? {α : Type} (p : α → Bool) (l : List α) (i : ℕ)
    (h : i ∈ find_indexes p l) : ∃ x, l[i]? = some x ∧ p x = true := by
  induction l generalizing i with
  | nil => simp [find_indexes] at h
  | cons x xs ih =>
      unfold find_indexes at h
      rw [List.mem_append] at h
      cases h with
      | inl h0 =>
          by_cases hp : p x
          · simp [hp] at h0
            subst h0
            exact ⟨x, by simp, hp⟩
          · simp [hp] at h0
      | inr h1 =>
          rw [List.mem_map] at h1
          obtain ⟨j, hj, rfl⟩ := h1
          obtain ⟨e, he, hpe⟩ := ih j hj
          exact ⟨e, by simpa using he, hpe⟩

theorem find_indexes_pairwise {α : Type} (p : α → Bool) (l : List α) :
    List.Pairwise (· < ·) (find_indexes p l) := by
  induction l with
  | nil => simp [find_indexes]
  | cons x xs ih =>
      unfold find_indexes
      rw [List.pairwise_append]
      refine ⟨?_, ?_, ?_⟩
      · by_cases hp : p x <;> simp [hp]
      · rw [List.pairwise_map]
        exact ih.imp (by omega)
      · intro a ha b hb
        rw [List.mem_map] at hb
        obtain ⟨j, hj, rfl⟩ := hb
        by_cases hp : p x
        · simp [hp] at ha
          omega
        · simp [hp] at ha

theorem vec_remove_of_getElem? {α : Type} (l : List α) (i : ℕ) (x : α)
    (h : l[i]? = some x) : ∃ l', vec_remove l i = some (x, l') := by
  induction l generalizing i with
  | nil => simp at h
  | cons y ys ih =>
      cases i with
      | zero =>
          simp at h
          subst h
          exact ⟨ys, rfl⟩
      | succ n =>
          simp at h
          obtain ⟨l', hl'⟩ := ih n h
          exact ⟨y :: l', by simp [vec_remove, hl']⟩

theorem vec_remove_elem {α : Type} {l l' : List α} {i : ℕ} {x : α}
    (h : vec_remove l i = some (x, l')) : ∀ e ∈ l, e = x ∨ e ∈ l' := by
  induction l generalizing i l' with
  | nil => simp [vec_remove] at h
  | cons y ys ih =>
      cases i with
      | zero =>
          simp only [vec_remove, Option.some.injEq, Prod.mk.injEq] at h
          obtain ⟨rfl, rfl⟩ := h
          intro e he
          rcases List.mem_cons.mp he with rfl | hm
          · exact Or.inl rfl
          · exact Or.inr hm
      | succ n =>
          simp only [vec_remove, Option.map_eq_some'] at h
          obtain ⟨⟨x₀, l₀⟩, hv, hx⟩ := h
          rw [Prod.mk.injEq] at hx
          obtain ⟨rfl, rfl⟩ := hx
          intro e he
          rcases List.mem_cons.mp he with rfl | hm
          · exact Or.inr (List.mem_cons_self _ _)
          · rcases ih hv e hm with rfl | hm'
            · exact Or.inl rfl
            · exact Or.inr (List.mem_cons_of_mem _ hm')

theorem vec_remove_getElem?_lt {α : Type} {l l' : List α} {i : ℕ} {x : α}
    (h : vec_remove l i = some (x, l')) : ∀ j, j < i → l'[j]? = l[j]? := by
  induction l generalizing i l' with
  | nil => simp [vec_remove] at h
  | cons y ys ih =>
      cases i with
      | zero => omega
      | succ n =>
          simp only [vec_remove, Option.map_eq_some'] at h
          obtain ⟨⟨x₀, l₀⟩, hv, hx⟩ := h
          rw [Prod.mk.injEq] at hx
          obtain ⟨rfl, rfl⟩ := hx
          intro j hj
          cases j with
          | zero => simp
          | succ k =>
              have := ih hv k (by omega)
              simpa using this

theorem vec_remove_getElem?_ge {α : Type} {l l' : List α} {i : ℕ} {x : α}
    (h : vec_remove l i = some (x, l')) : ∀ j, i ≤ j → l'[j]? = l[j + 1]? := by
  induction l generalizing i l' with
  | nil => simp [vec_remove] at h
  | cons y ys ih =>
      cases i with
      | zero =>
          simp only [vec_remove, Option.some.injEq, Prod.mk.injEq] at h
          obtain ⟨rfl, rfl⟩ := h
          intro j _
          simp
      | succ n =>
          simp only [vec_remove, Option.map_eq_some'] at h
          obtain ⟨⟨x₀, l₀⟩, hv, hx⟩ := h
          rw [Prod.mk.injEq] at hx
          obtain ⟨rfl, rfl⟩ := hx
          intro j hj
          cases j with
          | zero => omega
          | succ k =>
              have := ih hv k (by omega)
              simpa using this

theorem vec_remove_length {α : Type} {l l' : List α} {i : ℕ} {x : α}
    (h : vec_remove l i = some (x, l')) : l'.length + 1 = l.length := by
  induction l generalizing i l' with
  | nil => simp [vec_remove] at h
  | cons y ys ih =>
      cases i with
      | zero =>
          simp only [vec_remove, Option.some.injEq, Prod.mk.injEq] at h
          obtain ⟨rfl, rfl⟩ := h
          simp
      | succ n =>
          simp only [vec_remove, Option.map_eq_some'] at h
          obtain ⟨⟨x₀, l₀⟩, hv, hx⟩ := h
          rw [Prod.mk.injEq] at hx
          obtain ⟨rfl, rfl⟩ := hx
          have := ih hv
          simp only [List.length_cons]
          omega

theorem remove_and_cancel_length :
    ∀ (idxs : List ℕ) (l cs rem : List OrderContainer),
      remove_and_cancel l idxs = some (cs, rem) → rem.length + idxs.length = l.length := by
  intro idxs
  induction idxs with
  | nil =>
      intro l cs rem h
      simp only [remove_and_cancel, Option.some.injEq, Prod.mk.injEq] at h
      obtain ⟨rfl, rfl⟩ := h
      simp
  | cons i rest ih =>
      intro l cs rem h
      rcases hv : vec_remove l i with _ | ⟨x, l₁⟩
      · simp [remove_and_cancel, hv] at h
      · rcases hc : convert_limit_to_cancel x with _ | c
        · simp [remove_and_cancel, hv, hc] at h
        · simp only [remove_and_cancel, hv, hc, Option.map_eq_some'] at h
          obtain ⟨⟨cs', rem'⟩, hr, hx⟩ := h
          rw [Prod.mk.injEq] at hx
          obtain ⟨rfl, rfl⟩ := hx
          have h1 := ih l₁ cs' rem' hr
          have h2 := vec_remove_length hv
          simp only [List.length_cons]
          omega

theorem remove_and_cancel_getElem?_frame :
    ∀ (idxs : List ℕ) (l cs rem : List OrderContainer) (q : ℕ),
      remove_and_cancel l idxs = some (cs, rem) → (∀ j ∈ idxs, q < j) →
      rem[q]? = l[q]? := by
  intro idxs
  induction idxs with
  | nil =>
      intro l cs rem q h _
      simp only [remove_and_cancel, Option.some.injEq, Prod.mk.injEq] at h
      obtain ⟨rfl, rfl⟩ := h
      rfl
  | cons i rest ih =>
      intro l cs rem q h hq
      rcases hv : vec_remove l i with _ | ⟨x, l₁⟩
      · simp [remove_and_cancel, hv] at h
      · rcases hc : convert_limit_to_cancel x with _ | c
        · simp [remove_and_cancel, hv, hc] at h
        · simp only [remove_and_cancel, hv, hc, Option.map_eq_some'] at h
          obtain ⟨⟨cs', rem'⟩, hr, hx⟩ := h
          rw [Prod.mk.injEq] at hx
          obtain ⟨rfl, rfl⟩ := hx
          have hql : q < i := hq i (List.mem_cons_self _ _)
          calc rem'[q]? = l₁[q]? :=
                ih l₁ cs' rem' q hr (fun j hj => hq j (List.mem_cons_of_mem _ hj))
            _ = l[q]? := vec_remove_getElem?_lt hv q hql

theorem sent_order_matches_spec {oc : OrderContainer} {lo : LimitOrder}
    {x : OrderContainer} (h : sent_order_matches oc lo x = true) :
    x.robot_id = oc.robot_id ∧ ∃ slo, x.order = Order.LimitOrder slo := by
  unfold sent_order_matches at h
  rcases hx : x.order with slo | mo | co <;> rw [hx] at h <;> simp at h
  exact ⟨h.1.1.1.1, slo, rfl⟩

theorem convert_limit_eq {x : OrderContainer} {lo : LimitOrder}
    (hx : x.order = Order.LimitOrder lo) :
    convert_limit_to_cancel x =
      some { robot_id := x.robot_id,
             order := Order.CancelOrder
               { order_id := 0, gateway := lo.gateway, symbol := lo.symbol,
                 price := lo.price, amount := lo.amount,
                 order_side := lo.order_side,
                 custom_order_id := lo.custom_order_id },
             metainfo := x.metainfo, created_at := x.created_at } := by
  unfold convert_limit_to_cancel
  rw [hx]

theorem convert_robot_id {x c : OrderContainer}
    (h : convert_limit_to_cancel x = some c) : c.robot_id = x.robot_id := by
  unfold convert_limit_to_cancel at h
  rcases hx : x.order with lo | mo | co <;> rw [hx] at h <;> simp at h
  rw [← h]

/-- A ledger entry whose last two orders both match an incoming robot-B
limit order (two matches at the last two positions). -/
def c10_tail_matches : List OrderContainer :=
  [mk_limit_container "A" "Binance" "BTCUSDT" 1 98 OrderSide.Buy "ida" StrategyParams.Stub 0,
   mk_limit_container "B" "Binance" "BTCUSDT" 1 100 OrderSide.Buy "idb1" StrategyParams.Stub 1,
   mk_limit_container "B" "Binance" "BTCUSDT" 1 99 OrderSide.Buy "idb2" StrategyParams.Stub 2]

/-- A ledger entry with two robot-B matches followed by robot A's order. -/
def c10_mid_matches : List OrderContainer :=
  [mk_limit_container "B" "Binance" "BTCUSDT" 1 100 OrderSide.Buy "idb1" StrategyParams.Stub 1,
   mk_limit_container "B" "Binance" "BTCUSDT" 1 99 OrderSide.Buy "idb2" StrategyParams.Stub 2,
   mk_limit_container "A" "Binance" "BTCUSDT" 1 98 OrderSide.Buy "ida" StrategyParams.Stub 0]

/-- A ledger entry with a single matching order for the incoming robot-B
limit order. -/
def c10_single_match : List OrderContainer :=
  [mk_limit_container "A" "Binance" "BTCUSDT" 1 98 OrderSide.Buy "ida" StrategyParams.Stub 0,
   mk_limit_container "B" "Binance" "BTCUSDT" 1 100 OrderSide.Buy "idb1" StrategyParams.Stub 1]

/-- The incoming robot-B limit order used by the concrete removal cases. -/
def c10_incoming : OrderContainer :=
  mk_limit_container "B" "Binance" "BTCUSDT" 1 101 OrderSide.Buy "idb3" StrategyParams.Stub 3

/-- C10: `check_order` computes the full list of matching indices before
removing anything, so its removal loop is safe exactly under the
precondition of at most one match: with at most one matching ledger
entry the removals never go out of bounds, while with two or more
matches the later `Vec::remove` calls use stale indices — either the
run panics out of bounds (`none`), or exactly `|indices|` elements are
removed yet a matching entry still survives in the ledger, so a
non-matching entry was removed in its place; concretely, two matches at
the last two positions of the ledger make `check_order` index past the
end. -/
theorem check_order_stale_index_removal :
    (∀ (entry : List OrderContainer) (oc : OrderContainer),
        (find_sent_orders entry oc).length ≤ 1 →
        ∃ r, remove_and_cancel entry (find_sent_orders entry oc) = some r)
  ∧ (∀ (entry : List OrderContainer) (oc : OrderContainer) (lo : LimitOrder),
        oc.order = Order.LimitOrder lo →
        2 ≤ (find_sent_orders entry oc).length →
        remove_and_cancel entry (find_sent_orders entry oc) = none
        ∨ ∃ cancels rem,
            remove_and_cancel entry (find_sent_orders entry oc) = some (cancels, rem)
            ∧ rem.length + (find_sent_orders entry oc).length = entry.length
            ∧ ∃ e ∈ rem, sent_order_matches oc lo e = true)
  ∧ check_order [("Binance", c10_tail_matches)] c10_incoming = none := by
  refine ⟨?_, ?_, by decide⟩
  · intro entry oc hlen
    rcases hI : find_sent_orders entry oc with _ | ⟨i, rest⟩
    · exact ⟨([], entry), rfl⟩
    · have hrest : rest = [] := by
        rw [hI] at hlen
        simp at hlen
        exact hlen
      subst hrest
      have hmem : i ∈ find_sent_orders entry oc := by
        rw [hI]; exact List.mem_cons_self _ _
      rcases ho : oc.order with lo | mo | co
      · rw [find_sent_orders, ho] at hmem
        obtain ⟨x, hx, hpx⟩ := find_indexes_getElem? _ _ i hmem
        obtain ⟨l', hv⟩ := vec_remove_of_getElem? entry i x hx
        obtain ⟨_, slo, hslo⟩ := sent_order_matches_spec hpx
        have hc := convert_limit_eq hslo
        refine ⟨([{ robot_id := x.robot_id,
                    order := Order.CancelOrder
                      { order_id := 0, gateway := slo.gateway, symbol := slo.symbol,
                        price := slo.price, amount := slo.amount,
                        order_side := slo.order_side,
                        custom_order_id := slo.custom_order_id },
                    metainfo := x.metainfo, created_at := x.created_at }], l'), ?_⟩
        simp [remove_and_cancel, hv, hc]
      · rw [find_sent_orders, ho] at hI
        simp at hI
      · rw [find_sent_orders, ho] at hI
        simp at hI
  · intro entry oc lo ho h2
    rcases hres : remove_and_cancel entry (find_sent_orders entry oc) with _ | ⟨cs, rem⟩
    · exact Or.inl rfl
    · refine Or.inr ⟨cs, rem, rfl, remove_and_cancel_length _ _ _ _ hres, ?_⟩
      have hfi : find_sent_orders entry oc =
          find_indexes (sent_order_matches oc lo) entry := by
        rw [find_sent_orders, ho]
      rcases hI : find_indexes (sent_order_matches oc lo) entry with _ | ⟨i1, l2⟩
      · rw [hfi, hI] at h2; simp at h2
      · rcases hI2 : l2 with _ | ⟨i2, rest⟩
        · rw [hfi, hI, hI2] at h2; simp at h2
        · subst hI2
          have hpw := find_indexes_pairwise (sent_order_matches oc lo) entry
          rw [hI] at hpw
          rw [List.pairwise_cons] at hpw
          have h12 : i1 < i2 := hpw.1 i2 (List.mem_cons_self _ _)
          have hpw2 := List.pairwise_cons.mp hpw.2
          have hrest : ∀ j ∈ rest, i2 < j := hpw2.1
          obtain ⟨e2, he2, hpe2⟩ := find_indexes_getElem? (sent_order_matches oc lo)
            entry i2 (by rw [hI]; exact List.mem_cons_of_mem _ (List.mem_cons_self _ _))
          rw [hfi, hI] at hres
          rcases hv : vec_remove entry i1 with _ | ⟨x1, l₁⟩
          · simp [remove_and_cancel, hv] at hres
          · rcases hc : convert_limit_to_cancel x1 with _ | c1
            · simp [remove_and_cancel, hv, hc] at hres
            · simp only [remove_and_cancel, hv, hc, Option.map_eq_some'] at hres
              obtain ⟨⟨cs', rem'⟩, hr, hx⟩ := hres
              rw [Prod.mk.injEq] at hx
              obtain ⟨rfl, rfl⟩ := hx
              have hl1 : l₁[i2 - 1]? = entry[i2]? := by
                have hge := vec_remove_getElem?_ge hv (i2 - 1) (by omega)
                have : i2 - 1 + 1 = i2 := by omega
                rwa [this] at hge
              have hframe : rem'[i2 - 1]? = l₁[i2 - 1]? := by
                refine remove_and_cancel_getElem?_frame (i2 :: rest) l₁ cs' rem'
                  (i2 - 1) hr ?_
                intro j hj
                rcases List.mem_cons.mp hj with rfl | hjr
                · omega
                · have := hrest j hjr
                  omega
              have hin : rem'[i2 - 1]? = some e2 := by rw [hframe, hl1, he2]
              exact ⟨e2, List.getElem?_mem hin, hpe2⟩

/-- Witness for the stale-index theorem: the single-match ledger is
removed without panic, and the two-matches-then-robot-A ledger lands in
the stale-index disjunction. -/
theorem check_order_stale_index_removal_witness :
    (∃ r, remove_and_cancel c10_single_match
        (find_sent_orders c10_single_match c10_incoming) = some r)
  ∧ (remove_and_cancel c10_mid_matches
        (find_sent_orders c10_mid_matches c10_incoming) = none
      ∨ ∃ cancels rem,
          remove_and_cancel c10_mid_matches
              (find_sent_orders c10_mid_matches c10_incoming) = some (cancels, rem)
          ∧ rem.length + (find_sent_orders c10_mid_matches c10_incoming).length
              = c10_mid_matches.length
          ∧ ∃ e ∈ rem,
              sent_order_matches c10_incoming
                { gateway := "Binance", symbol := "BTCUSDT", amount := 1, price := 101,
                  order_side := OrderSide.Buy, custom_order_id := "idb3" } e = true) :=
  ⟨check_order_stale_index_removal.1 c10_single_match c10_incoming (by decide),
   check_order_stale_index_removal.2.1 c10_mid_matches c10_incoming
     { gateway := "Binance", symbol := "BTCUSDT", amount := 1, price := 101,
       order_side := OrderSide.Buy, custom_order_id := "idb3" } rfl (by decide)⟩

/-- The precondition under which the stale-index removal of `check_order`
is exact: the looked-up gateway ledger entry holds at most one order
matching the incoming container. -/
def at_most_one_match (sent_orders : SentOrdersMap) (oc : OrderContainer) : Prop :=
  ∀ lo entry, oc.order = Order.LimitOrder lo →
    lookupA sent_orders lo.gateway = some entry →
    (find_sent_orders entry oc).length ≤ 1

/-- C2 (amended): when the gateway's ledger entry holds at most one order
matching the incoming container, every CancelOrder synthesized by
`check_order` carries the incoming container's robot id, and every
ledger entry of any gateway whose robot id differs from the incoming one
survives in the post-dispatch ledger — cross-robot isolation holds under
that precondition (and fails without it, see the counterexample). -/
theorem check_order_cross_robot_isolation
    (sent_orders : SentOrdersMap) (oc : OrderContainer)
    (cancels : List OrderContainer) (sent' : SentOrdersMap)
    (hone : at_most_one_match sent_orders oc)
    (h : check_order sent_orders oc = some (cancels, sent')) :
    (∀ c ∈ cancels, c.robot_id = oc.robot_id)
  ∧ (∀ g entry, lookupA sent_orders g = some entry →
      ∀ e ∈ entry, e.robot_id ≠ oc.robot_id →
        ∃ entry', lookupA sent' g = some entry' ∧ e ∈ entry') := by
  rcases ho : oc.order with lo | mo | co
  case MarketOrder =>
    simp only [check_order, ho, Option.some.injEq, Prod.mk.injEq] at h
    obtain ⟨rfl, rfl⟩ := h
    exact ⟨by simp, fun g entry hg e he _ => ⟨entry, hg, he⟩⟩
  case CancelOrder =>
    simp only [check_order, ho, Option.some.injEq, Prod.mk.injEq] at h
    obtain ⟨rfl, rfl⟩ := h
    exact ⟨by simp, fun g entry hg e he _ => ⟨entry, hg, he⟩⟩
  case LimitOrder =>
    rcases hlook : lookupA sent_orders lo.gateway with _ | entry₀
    · simp only [check_order, ho, hlook, Option.some.injEq, Prod.mk.injEq] at h
      obtain ⟨rfl, rfl⟩ := h
      exact ⟨by simp, fun g entry hg e he _ => ⟨entry, hg, he⟩⟩
    · have hlen := hone lo entry₀ ho hlook
      rcases hI : find_sent_orders entry₀ oc with _ | ⟨i, rest⟩
      · simp only [check_order, ho, hlook, hI, remove_and_cancel,
          Option.some.injEq, Prod.mk.injEq] at h
        obtain ⟨rfl, rfl⟩ := h
        refine ⟨by simp, fun g entry hg e he _ => ?_⟩
        by_cases hgw : g = lo.gateway
        · subst hgw
          rw [hg] at hlook
          injection hlook with hq
          subst hq
          exact ⟨entry, lookupA_insertA_self _ _ _, he⟩
        · exact ⟨entry, by rw [lookupA_insertA_ne _ _ _ _ hgw]; exact hg, he⟩
      · have hrest : rest = [] := by
          rw [hI] at hlen
          simp at hlen
          exact hlen
        subst hrest
        have hmem : i ∈ find_sent_orders entry₀ oc := by
          rw [hI]; exact List.mem_cons_self _ _
        rw [find_sent_orders, ho] at hmem
        obtain ⟨x, hx, hpx⟩ := find_indexes_getElem? _ _ i hmem
        obtain ⟨l', hv⟩ := vec_remove_of_getElem? entry₀ i x hx
        obtain ⟨hxrobot, slo, hslo⟩ := sent_order_matches_spec hpx
        have hc := convert_limit_eq hslo
        have hra : remove_and_cancel entry₀ [i] =
            some ([{ robot_id := x.robot_id,
                     order := Order.CancelOrder
                       { order_id := 0, gateway := slo.gateway, symbol := slo.symbol,
                         price := slo.price, amount := slo.amount,
                         order_side := slo.order_side,
                         custom_order_id := slo.custom_order_id },
                     metainfo := x.metainfo, created_at := x.created_at }], l') := by
          simp [remove_and_cancel, hv, hc]
        simp only [check_order, ho, hlook, hI, hra, Option.some.injEq,
          Prod.mk.injEq] at h
        obtain ⟨rfl, rfl⟩ := h
        constructor
        · intro c hcmem
          rcases List.mem_cons.mp hcmem with rfl | hnil
          · exact hxrobot
          · simp at hnil
        · intro g entry hg e he hne
          by_cases hgw : g = lo.gateway
          · subst hgw
            rw [hg] at hlook
            injection hlook with hq
            subst hq
            have hex : e ≠ x := fun hq => hne (hq ▸ hxrobot)
            exact ⟨l', lookupA_insertA_self _ _ _,
              (vec_remove_elem hv e he).resolve_left hex⟩
          · exact ⟨entry, by rw [lookupA_insertA_ne _ _ _ _ hgw]; exact hg, he⟩

/-- Witness for cross-robot isolation at a concrete input: robot A's
ledger entry survives a dispatch of robot B's order that supersedes a
single matching robot-B entry. -/
theorem check_order_cross_robot_isolation_witness :
    ∃ cancels sent',
      check_order [("Binance", c10_single_match)] c10_incoming = some (cancels, sent')
      ∧ (∀ c ∈ cancels, c.robot_id = "B")
      ∧ ∃ entry', lookupA sent' "Binance" = some entry'
          ∧ mk_limit_container "A" "Binance" "BTCUSDT" 1 98 OrderSide.Buy "ida"
              StrategyParams.Stub 0 ∈ entry' := by
  have h : check_order [("Binance", c10_single_match)] c10_incoming =
      some ([mk_cancel_container "B" "Binance" "BTCUSDT" 1 100 OrderSide.Buy "idb1"
               StrategyParams.Stub 1],
            [("Binance",
              [mk_limit_container "A" "Binance" "BTCUSDT" 1 98 OrderSide.Buy "ida"
                 StrategyParams.Stub 0])]) := by decide
  have hiso := check_order_cross_robot_isolation _ _ _ _
    (by
      intro lo entry hlo hentry
      simp only [c10_incoming, mk_limit_container, Order.LimitOrder.injEq] at hlo
      rw [← hlo] at hentry
      simp only [lookupA] at hentry
      rw [if_pos trivial] at hentry
      injection hentry with hq
      rw [← hq]
      decide) h
  refine ⟨_, _, h, ?_, ?_⟩
  · intro c hc
    exact hiso.1 c hc
  · exact (hiso.2 "Binance" c10_single_match (by decide)
      (mk_limit_container "A" "Binance" "BTCUSDT" 1 98 OrderSide.Buy "ida"
        StrategyParams.Stub 0) (by decide) (by decide))

/-- Counterexample to C2 as stated: with two robot-B entries that match
the incoming robot-B order and robot A's entry after them, the stale
second index removes robot A's order instead of the second match —
`check_order` synthesizes a CancelOrder carrying robot id "A" for a
dispatch triggered by robot B, and robot A's order disappears from the
ledger. -/
theorem check_order_cross_robot_isolation_counterexample :
    check_order [("Binance", c10_mid_matches)] c10_incoming =
      some ([mk_cancel_container "B" "Binance" "BTCUSDT" 1 100 OrderSide.Buy "idb1"
               StrategyParams.Stub 1,
             mk_cancel_container "A" "Binance" "BTCUSDT" 1 98 OrderSide.Buy "ida"
               StrategyParams.Stub 0],
            [("Binance",
              [mk_limit_container "B" "Binance" "BTCUSDT" 1 99 OrderSide.Buy "idb2"
                 StrategyParams.Stub 2])])
  ∧ (mk_cancel_container "A" "Binance" "BTCUSDT" 1 98 OrderSide.Buy "ida"
       StrategyParams.Stub 0).robot_id ≠ c10_incoming.robot_id := by
  refine ⟨by decide, by decide⟩

theorem convert_not_limit {x c : OrderContainer}
    (h : convert_limit_to_cancel x = some c) : is_limit_container c = false := by
  unfold convert_limit_to_cancel at h
  rcases hx : x.order with lo | mo | co <;> rw [hx] at h <;> simp at h
  rw [← h]
  rfl

theorem filter_limit_filterMap_convert (l : List OrderContainer) :
    (l.filterMap convert_limit_to_cancel).filter is_limit_container = [] := by
  rw [List.filter_eq_nil]
  intro c hc
  rw [List.mem_filterMap] at hc
  obtain ⟨x, _, hx⟩ := hc
  simp [convert_not_limit hx]

theorem send_orders_all_empty
    (groups : List (String × List OrderContainer)) :
    ∀ acc : SentOrdersMap,
      (∀ g, lookupA acc g = none ∨ lookupA acc g = some []) →
      (∀ p ∈ groups, ∀ oc ∈ p.2, is_limit_container oc = false) →
      ∀ g, lookupA (send_orders acc groups) g = none
        ∨ lookupA (send_orders acc groups) g = some [] := by
  induction groups with
  | nil => intro acc hacc _ g; exact hacc g
  | cons p rest ih =>
      obtain ⟨gw, orders⟩ := p
      intro acc hacc hgr g
      rw [send_orders]
      refine ih (save_sent_orders acc gw orders) ?_
        (fun q hq => hgr q (List.mem_cons_of_mem _ hq)) g
      intro g'
      have hfil : orders.filter is_limit_container = [] := by
        rw [List.filter_eq_nil]
        intro oc hoc
        simp [hgr (gw, orders) (List.mem_cons_self _ _) oc hoc]
      unfold save_sent_orders
      rw [hfil]
      by_cases hg' : g' = gw
      · subst hg'
        exact Or.inr (lookupA_insertA_self _ _ _)
      · rw [lookupA_insertA_ne _ _ _ _ hg']
        exact hacc g'

/-- C3: stopping the Order Manager in the Started state dispatches, for
every limit order still in the sent-orders ledger, a CancelOrder with the
same gateway, symbol, price, amount, side, custom order id, robot id and
strategy metadata to that gateway's channel, and afterwards no entry of
the sent-orders ledger contains any order; the state moves to Stopped. -/
theorem om_stop_drains (om om' : OrderManager)
    (msgs : List (String × List OrderContainer))
    (hstate : om.current_state = OrderManagerState.Started)
    (h : om_stop om = Except.ok (om', msgs)) :
    (∀ g entry, lookupA om.sent_orders g = some entry →
       ∀ oc ∈ entry, ∀ lo : LimitOrder, oc.order = Order.LimitOrder lo →
         ∃ group, (g, group) ∈ msgs ∧
           ({ robot_id := oc.robot_id,
              order := Order.CancelOrder
                { order_id := 0, gateway := lo.gateway, symbol := lo.symbol,
                  price := lo.price, amount := lo.amount,
                  order_side := lo.order_side,
                  custom_order_id := lo.custom_order_id },
              metainfo := oc.metainfo,
              created_at := oc.created_at } : OrderContainer) ∈ group)
  ∧ (∀ g, lookupA om'.sent_orders g = none ∨ lookupA om'.sent_orders g = some [])
  ∧ om'.current_state = OrderManagerState.Stopped := by
  rw [om_stop, hstate] at h
  simp only [make_cancel_orders, Except.ok.injEq, Prod.mk.injEq] at h
  obtain ⟨hom', hmsgs⟩ := h
  refine ⟨?_, ?_, ?_⟩
  · intro g entry hlook oc hoc lo hlo
    refine ⟨entry.filterMap convert_limit_to_cancel, ?_, ?_⟩
    · rw [← hmsgs]
      exact List.mem_map_of_mem _ (lookupA_mem hlook)
    · rw [List.mem_filterMap]
      exact ⟨oc, hoc, convert_limit_eq hlo⟩
  · intro g
    rw [← hom']
    refine send_orders_all_empty _ [] (by intro g'; exact Or.inl rfl) ?_ g
    intro p hp oc hoc
    rw [List.mem_map] at hp
    obtain ⟨e, _, rfl⟩ := hp
    rw [List.mem_filterMap] at hoc
    obtain ⟨x, _, hx⟩ := hoc
    exact convert_not_limit hx
  · rw [← hom']

/-- Witness for the shutdown-drain theorem: a ledger holding one Binance
limit order yields the corresponding cancel message and an orderless
ledger. -/
theorem om_stop_drains_witness :
    (∃ group,
        ("Binance", group) ∈
          [("Binance",
            [mk_cancel_container "R1" "Binance" "BTCUSDT" 1 100 OrderSide.Buy "id1"
               StrategyParams.Stub 0])]
        ∧ mk_cancel_container "R1" "Binance" "BTCUSDT" 1 100 OrderSide.Buy "id1"
            StrategyParams.Stub 0 ∈ group)
  ∧ (lookupA [("Binance", ([] : List OrderContainer))] "Binance" = none
      ∨ lookupA [("Binance", ([] : List OrderContainer))] "Binance" = some []) := by
  have h := om_stop_drains
    { sent_orders := [("Binance",
        [mk_limit_container "R1" "Binance" "BTCUSDT" 1 100 OrderSide.Buy "id1"
           StrategyParams.Stub 0])],
      current_state := OrderManagerState.Started }
    { sent_orders := [("Binance", [])],
      current_state := OrderManagerState.Stopped }
    [("Binance",
      [mk_cancel_container "R1" "Binance" "BTCUSDT" 1 100 OrderSide.Buy "id1"
         StrategyParams.Stub 0])]
    rfl rfl
  exact ⟨h.1 "Binance" _ rfl _ (List.mem_cons_self _ _) _ rfl, h.2.1 "Binance"⟩

/-! ### Context Manager (src/context_manager/context_manager.rs) -/

/-- `Ticker` (src/gateway/gateway.rs). -/
structure Ticker where
  price : ℚ
  qty : ℚ
deriving DecidableEq

/-- `Depth` (src/gateway/gateway.rs). -/
structure Depth where
  exchange : String
  bids : List Ticker
  asks : List Ticker
deriving DecidableEq

/-- `DepthInfo` (src/context_manager/models.rs). -/
structure DepthInfo where
  gateway_name : String
  exchange_name : String
  symbol : String
  depth : Depth
deriving DecidableEq

/-- `DepthMsg` (src/context_manager/models.rs); `created_at` is the
receipt timestamp, modelled opaquely (its only use is the global
latency-metric mutex, outside this embedding). -/
structure DepthMsg where
  depth_info : DepthInfo
  created_at : ℕ
deriving DecidableEq

/-- The Context Manager's depth table `<Gateway, <Symbol, DepthInfo>>`. -/
abbrev DepthInfoMap := List (String × List (String × DepthInfo))

/-- `ContextManager::handle_depth`: builds a fresh single-symbol inner
map and inserts it under the message's `exchange_name` key, replacing
whatever inner map was there. -/
def handle_depth (depth_info_table : DepthInfoMap) (depth_msg : DepthMsg) :
    DepthInfoMap :=
  let depth_info := depth_msg.depth_info
  insertA depth_info_table depth_info.exchange_name
    [(depth_info.symbol, depth_info)]

/-- C4 (amended): a `DepthMsg` replaces the whole depth-table entry for
the message's `exchange_name` with a singleton map holding only that
message's symbol — entries for other exchanges are unchanged, but other
symbols previously stored under the same exchange are dropped (and the
key is the exchange name, not the gateway name). -/
theorem handle_depth_overwrites_exchange_entry
    (table : DepthInfoMap) (msg : DepthMsg) :
    lookupA (handle_depth table msg) msg.depth_info.exchange_name
      = some [(msg.depth_info.symbol, msg.depth_info)]
  ∧ (∀ e, e ≠ msg.depth_info.exchange_name →
      lookupA (handle_depth table msg) e = lookupA table e) :=
  ⟨lookupA_insertA_self _ _ _,
   fun e he => lookupA_insertA_ne _ _ _ _ he⟩

/-- A concrete depth snapshot for a symbol on Binance. -/
def c4_depth_info (symbol : String) (price : ℚ) : DepthInfo :=
  { gateway_name := "Binance", exchange_name := "Binance", symbol := symbol,
    depth := { exchange := "Binance", bids := [{ price := price, qty := 1 }],
               asks := [] } }

/-- A depth table where the Binance entry holds two symbols. -/
def c4_table : DepthInfoMap :=
  [("Binance", [("BTCUSDT", c4_depth_info "BTCUSDT" 100),
                ("ETHUSDT", c4_depth_info "ETHUSDT" 10)]),
   ("Huobi", [("BTCUSDT", c4_depth_info "BTCUSDT" 101)])]

/-- Witness for the depth-overwrite theorem: the Binance entry becomes the
new singleton and the Huobi entry is untouched. -/
theorem handle_depth_overwrites_exchange_entry_witness :
    lookupA (handle_depth c4_table
        { depth_info := c4_depth_info "BTCUSDT" 99, created_at := 1 }) "Binance"
      = some [("BTCUSDT", c4_depth_info "BTCUSDT" 99)]
  ∧ lookupA (handle_depth c4_table
        { depth_info := c4_depth_info "BTCUSDT" 99, created_at := 1 }) "Huobi"
      = lookupA c4_table "Huobi" :=
  ⟨(handle_depth_overwrites_exchange_entry c4_table
      { depth_info := c4_depth_info "BTCUSDT" 99, created_at := 1 }).1,
   (handle_depth_overwrites_exchange_entry c4_table
      { depth_info := c4_depth_info "BTCUSDT" 99, created_at := 1 }).2
     "Huobi" (by decide)⟩

/-- Counterexample to C4 as stated: before the update the Binance entry
holds a snapshot for ETHUSDT; after a `DepthMsg` for (Binance, BTCUSDT)
the ETHUSDT snapshot is gone — the update does not leave entries for
other symbols of the same gateway unchanged. -/
theorem handle_depth_counterexample :
    ((lookupA c4_table "Binance").map (fun m => lookupA m "ETHUSDT"))
      = some (some (c4_depth_info "ETHUSDT" 10))
  ∧ ((lookupA (handle_depth c4_table
        { depth_info := c4_depth_info "BTCUSDT" 99, created_at := 1 }) "Binance").map
          (fun m => lookupA m "ETHUSDT"))
      = some none := by
  refine ⟨by decide, by decide⟩

/-! ### Gateway cancel path (src/gateway/gateway.rs) -/

/-- `ExchangeName` (src/gateway/gateway_params.rs). -/
inductive ExchangeName
  | Binance
  | Huobi
  | BitMEX
  | StubExchange
deriving DecidableEq

/-- `Gateway::cancel_order`: routes the cancel to the exchange-specific
cancel-by-custom-id call and downgrades every exchange rejection to a
logged warning ("Can't cancel order ... It could be filled"), returning
`Ok`; BitMEX and the stub exchange are no-ops. The exchange adapter's
response is passed in as `exchange_result` (the account handle is
assumed configured, as on every running gateway). The `{:.2}` price
formatting in the source only feeds the log line. -/
def cancel_order (cancel_order : CancelOrder) (exchange : ExchangeName)
    (exchange_result : Except String Unit) : Except String Unit :=
  match exchange with
  | ExchangeName.Binance =>
      match exchange_result with
      | Except.ok _ => Except.ok ()
      | Except.error _ => Except.ok ()
  | ExchangeName.Huobi =>
      match exchange_result with
      | Except.ok _ => Except.ok ()
      | Except.error _ => Except.ok ()
  | ExchangeName.BitMEX => Except.ok ()
  | ExchangeName.StubExchange => Except.ok ()

/-- C8: `cancel_order` reports success for every exchange variant and
every exchange response — in particular a rejection because the order
was already filled is never propagated to the caller. -/
theorem cancel_order_never_propagates_error :
    ∀ (co : CancelOrder) (exchange : ExchangeName)
      (exchange_result : Except String Unit),
      cancel_order co exchange exchange_result = Except.ok () := by
  intro co exchange exchange_result
  cases exchange <;> cases exchange_result <;> rfl

/-- C9: `handle_active_order` appends an `ActiveStateOrder` to its robot's
active-orders list (creating the list when absent) and leaves every other
robot's list unchanged, while a `FilledOrder` message leaves the whole
active-orders store unchanged. -/
theorem handle_active_order_spec :
    (∀ (store : List (String × List ActiveOrder)) (a : ActiveOrder),
        lookupA (handle_active_order store (ActiveOrderMsg.ActiveStateOrder a))
            a.robot_id
          = some ((lookupA store a.robot_id).getD [] ++ [a])
      ∧ ∀ k, k ≠ a.robot_id →
          lookupA (handle_active_order store (ActiveOrderMsg.ActiveStateOrder a)) k
            = lookupA store k)
  ∧ (∀ (store : List (String × List ActiveOrder)) (f : FilledOrder),
      handle_active_order store (ActiveOrderMsg.FilledOrder f) = store) := by
  refine ⟨?_, fun store f => rfl⟩
  intro store a
  constructor
  · rcases hlook : lookupA store a.robot_id with _ | orders
    · rw [handle_active_order, hlook]
      simp [lookupA_insertA_self]
    · rw [handle_active_order, hlook]
      simp [lookupA_insertA_self]
  · intro k hk
    rcases hlook : lookupA store a.robot_id with _ | orders
    · rw [handle_active_order, hlook]
      exact lookupA_insertA_ne _ _ _ _ hk
    · rw [handle_active_order, hlook]
      exact lookupA_insertA_ne _ _ _ _ hk

/-- A concrete active order from robot R1. -/
def c9_active_order : ActiveOrder :=
  { custom_order_id := "Custom123", robot_id := "R1", gateway := "Binance",
    symbol := "BTCUSDT", amount := 1, price := 100,
    order_side := OrderSide.Buy, strategy_params := StrategyParams.Stub }

/-- Witness for the active-order handling theorem: appending R1's order
leaves robot R2's list untouched, and a fill leaves the store unchanged. -/
theorem handle_active_order_spec_witness :
    lookupA (handle_active_order [("R2", [c9_active_order])]
        (ActiveOrderMsg.ActiveStateOrder c9_active_order)) "R2"
      = lookupA [("R2", [c9_active_order])] "R2"
  ∧ handle_active_order [("R2", [c9_active_order])]
      (ActiveOrderMsg.FilledOrder
        { custom_order_id := "Custom123", order_id := 1,
          symbol := "BTCUSDT", amount := "1" })
      = [("R2", [c9_active_order])] :=
  ⟨(handle_active_order_spec.1 [("R2", [c9_active_order])] c9_active_order).2
      "R2" (by decide),
   handle_active_order_spec.2 [("R2", [c9_active_order])]
      { custom_order_id := "Custom123", order_id := 1,
        symbol := "BTCUSDT", amount := "1" }⟩

/-- `Position::init_bid_stub_position`: the default stub position with the
Sell side and the given price. -/
def init_bid_stub_position (price : ℚ) : Position :=
  { gateway := "Binance", symbol := "BTCUSDT", amount := 1, price := price,
    order_side := OrderSide.Sell, strategy_params := StrategyParams.Stub }

/-- Sixteen sell positions at consecutively non-increasing prices. -/
def c7_sell_chain : List Position :=
  [init_bid_stub_position 16, init_bid_stub_position 15, init_bid_stub_position 14,
   init_bid_stub_position 13, init_bid_stub_position 12, init_bid_stub_position 11,
   init_bid_stub_position 10, init_bid_stub_position 9, init_bid_stub_position 8,
   init_bid_stub_position 7, init_bid_stub_position 6, init_bid_stub_position 5,
   init_bid_stub_position 4, init_bid_stub_position 3, init_bid_stub_position 2,
   init_bid_stub_position 1]

/-- Fifteen sell positions at consecutively non-increasing prices. -/
def c7_sell_short : List Position :=
  [init_bid_stub_position 15, init_bid_stub_position 14, init_bid_stub_position 13,
   init_bid_stub_position 12, init_bid_stub_position 11, init_bid_stub_position 10,
   init_bid_stub_position 9, init_bid_stub_position 8, init_bid_stub_position 7,
   init_bid_stub_position 6, init_bid_stub_position 5, init_bid_stub_position 4,
   init_bid_stub_position 3, init_bid_stub_position 2, init_bid_stub_position 1]

/-- Witness for the bad-deal-chain threshold theorem at concrete inputs:
16 non-increasing sell prices lock, 15 do not. -/
theorem bad_deal_chain_threshold_witness :
    check_bids c7_sell_chain = true ∧ check_bids c7_sell_short = false :=
  ⟨bad_deal_chain_threshold.2.2.1 c7_sell_chain (by decide)
      (by norm_num [c7_sell_chain, init_bid_stub_position, List.chain'_cons]),
   bad_deal_chain_threshold.2.2.2 c7_sell_short (by decide)⟩

end MX
